import Mathlib

/-!
Shallow embedding of the autocrop package (autocrop.go from
github.com/mandykoh/autocrop).

Modelling conventions:
* Go float32 values are idealised as exact rationals.  All quantities the
  algorithm compares (energies, thresholds) are carried in ℚ.
* The Go expression energies[i]/maxEnergy > threshold is special when
  maxEnergy = 0: Go float division by zero does not fault, it yields NaN
  (for 0/0) or an infinity, and every comparison with NaN is false.  The
  definition divGT reproduces the Boolean outcome of that comparison.
* The pixel pipeline colourAt / luminance is abstracted to two functions on
  the image: lum x y models luminance(colourAt(img,x,y)) = c.Luminance() +
  alpha, and alpha x y models the alpha fraction returned by
  srgb.ColorFromNRGBA.  The energy computation only consumes these two
  per-pixel quantities.
* Go slices become Lean lists; the nested accumulation loops of Energies
  become per-entry sums (each per-pixel energy is added once to its column
  and once to its row accumulator, so the final entry values are these sums).
* Checked variants (returning Option) perform every slice read with a
  bounds-checked access, modelling the fact that a Go slice access outside
  the range would fault; the theorem for claim C10 shows they always
  succeed and agree with the total definitions.
-/

namespace Autocrop

/-- Embedding of Go image.Rectangle (half-open: Min inclusive, Max exclusive). -/
structure Rectangle where
  minX : ℤ
  minY : ℤ
  maxX : ℤ
  maxY : ℤ
deriving DecidableEq

/-- Go image.Rectangle.Dx. -/
def Rectangle.Dx (r : Rectangle) : ℤ := r.maxX - r.minX

/-- Go image.Rectangle.Dy. -/
def Rectangle.Dy (r : Rectangle) : ℤ := r.maxY - r.minY

/-- Go image.Rectangle.Empty: true when the rectangle has no points. -/
def Rectangle.Empty (r : Rectangle) : Bool :=
  decide (r.maxX ≤ r.minX) || decide (r.maxY ≤ r.minY)

/-- Go image.Rectangle.In: r is entirely inside s (an empty r is inside
    every rectangle). -/
def Rectangle.In (r s : Rectangle) : Bool :=
  if r.Empty then true
  else decide (s.minX ≤ r.minX) && decide (r.maxX ≤ s.maxX) &&
       decide (s.minY ≤ r.minY) && decide (r.maxY ≤ s.maxY)

/-- Abstraction of a Go image.NRGBA together with the colour pipeline of
    autocrop.go: lum x y is luminance(colourAt(img,x,y)) (the perceptual
    luminance of the pixel colour plus its alpha fraction, per the source
    function luminance), and alpha x y is the alpha fraction of the pixel. -/
structure NRGBA where
  Rect : Rectangle
  lum : ℤ → ℤ → ℚ
  alpha : ℤ → ℤ → ℚ

/-- Row-major listing of f over a w-by-h grid; this is the flat slice
    produced by the nested loops of luminancesAndAlphas (index = i*w + j). -/
def grid (w h : ℕ) (f : ℕ → ℕ → ℚ) : List ℚ :=
  (List.range h).flatMap fun i => (List.range w).map fun j => f j i

/-- Embedding of luminancesAndAlphas: flat row-major luminance and alpha
    slices for the rectangle r. -/
def luminancesAndAlphas (img : NRGBA) (r : Rectangle) : List ℚ × List ℚ :=
  (grid r.Dx.toNat r.Dy.toNat (fun j i => img.lum (r.minX + j) (r.minY + i)),
   grid r.Dx.toNat r.Dy.toNat (fun j i => img.alpha (r.minX + j) (r.minY + i)))

/-- Embedding of the energy function of autocrop.go.  Slice reads are
    modelled with getD; the checked variant below shows that at every
    call site of the algorithm all nine indices are in range, so the
    defaults are never consulted there. -/
def energy (luminances alphas : List ℚ) (width : ℤ) (x y : ℤ) : ℚ :=
  let center := y * width + x
  let lumAt := fun k : ℤ => luminances.getD k.toNat 0
  let eX := lumAt (center - width - 1) + lumAt (center - 1) + lumAt (center + width - 1)
              - lumAt (center - width + 1) - lumAt (center + 1) - lumAt (center + width + 1)
  let eY := lumAt (center - width - 1) + lumAt (center - width) + lumAt (center - width + 1)
              - lumAt (center + width - 1) - lumAt (center + width) - lumAt (center + width + 1)
  (|eX| + |eY|) * alphas.getD center.toNat 0

/-- The expanded rectangle used by Energies to obtain one extra pixel of
    luminance data on each side. -/
def luminanceBoundsOf (r : Rectangle) : Rectangle :=
  ⟨r.minX - 1, r.minY - 1, r.maxX + 1, r.maxY + 1⟩

/-- Column projection built by Energies: entry col holds the sum of the
    per-pixel energies of column col of the region r (the loop adds each
    energy once to cols[col]). -/
def colEnergies (img : NRGBA) (r : Rectangle) : List ℚ :=
  let lb := luminanceBoundsOf r
  let la := luminancesAndAlphas img lb
  (List.range r.Dx.toNat).map fun (col : ℕ) =>
    ((List.range r.Dy.toNat).map fun (row : ℕ) =>
      energy la.1 la.2 lb.Dx ((col : ℤ) + 1) ((row : ℤ) + 1)).sum

/-- Row projection built by Energies: entry row holds the sum of the
    per-pixel energies of row row of the region r. -/
def rowEnergies (img : NRGBA) (r : Rectangle) : List ℚ :=
  let lb := luminanceBoundsOf r
  let la := luminancesAndAlphas img lb
  (List.range r.Dy.toNat).map fun (row : ℕ) =>
    ((List.range r.Dx.toNat).map fun (col : ℕ) =>
      energy la.1 la.2 lb.Dx ((col : ℤ) + 1) ((row : ℤ) + 1)).sum

/-- Embedding of Energies: the pair of column and row energy projections. -/
def Energies (img : NRGBA) (r : Rectangle) : List ℚ × List ℚ :=
  (colEnergies img r, rowEnergies img r)

/-- The safety margin constant bufferPixels of autocrop.go. -/
def bufferPixels : ℕ := 2

/-- Boolean outcome of the Go float comparison e/m > t, including the
    degenerate case m = 0: Go float division by zero yields NaN (for 0/0,
    whose comparisons are all false) or a signed infinity (for e ≠ 0). -/
def divGT (e m t : ℚ) : Bool :=
  if m = 0 then (if e = 0 then false else decide (0 < e))
  else decide (t < e / m)

/-- Loop of findFirstEnergyBound: i is the current absolute index (the Go
    loop variable), which also equals the bound accumulated so far, since
    bound is incremented exactly once per non-qualifying step. -/
def findFirstFrom (m t : ℚ) : List ℚ → ℕ → ℕ
  | [], i => i
  | e :: rest, i =>
    if divGT e m t then (if 0 < i then i + bufferPixels else i)
    else findFirstFrom m t rest (i + 1)

/-- Embedding of findFirstEnergyBound of autocrop.go. -/
def findFirstEnergyBound (energies : List ℚ) (maxEnergy threshold : ℚ) : ℕ :=
  findFirstFrom maxEnergy threshold energies 0

/-- Loop of findLastEnergyBound: the first ℕ argument is the Go loop
    variable i (scanning downwards), the second is the bound accumulator.
    At i = 0 the Go loop condition i > firstBound+bufferPixels is false
    (firstBound + bufferPixels ≥ 2), so the accumulator is returned. -/
def findLastFrom (energies : List ℚ) (m t : ℚ) (firstBound : ℕ) : ℕ → ℕ → ℕ
  | 0, bound => bound
  | i + 1, bound =>
    if firstBound + bufferPixels < i + 1 then
      if divGT (energies.getD (i + 1) 0) m t then
        energies.length - (i + 1) - 1 +
          (if i + 1 < energies.length - 1 then bufferPixels else 0)
      else findLastFrom energies m t firstBound i (bound + 1)
    else bound

/-- Embedding of findLastEnergyBound of autocrop.go. -/
def findLastEnergyBound (energies : List ℚ) (maxEnergy threshold : ℚ)
    (firstBound : ℕ) : ℕ :=
  findLastFrom energies maxEnergy threshold firstBound (energies.length - 1) 0

/-- Embedding of findMaxEnergy of autocrop.go (never called on an empty
    slice by the algorithm; Go would fault there, see the checked variant). -/
def findMaxEnergy (energies : List ℚ) : ℚ :=
  match energies with
  | [] => 0
  | e :: rest => rest.foldl (fun mx x => if mx < x then x else mx) e

/-- The interior rectangle (1-pixel margin removed on every side) used by
    BoundsForThreshold as the energy region. -/
def energyCropOf (r : Rectangle) : Rectangle :=
  ⟨r.minX + 1, r.minY + 1, r.maxX - 1, r.maxY - 1⟩

/-- Embedding of BoundsForThreshold of autocrop.go. -/
def BoundsForThreshold (img : NRGBA) (energyThreshold : ℚ) : Rectangle :=
  let crop := img.Rect
  let energyCrop := energyCropOf crop
  if energyCrop.Empty then img.Rect
  else
    let es := Energies img energyCrop
    let maxC := findMaxEnergy es.1
    let cropLeft := findFirstEnergyBound es.1 maxC energyThreshold
    let cropRight := findLastEnergyBound es.1 maxC energyThreshold cropLeft
    let maxR := findMaxEnergy es.2
    let cropTop := findFirstEnergyBound es.2 maxR energyThreshold
    let cropBottom := findLastEnergyBound es.2 maxR energyThreshold cropTop
    ⟨crop.minX + cropLeft, crop.minY + cropTop,
     crop.maxX - cropRight, crop.maxY - cropBottom⟩

/-! ### Basic facts about the row-major grid -/

theorem length_grid (w h : ℕ) (f : ℕ → ℕ → ℚ) : (grid w h f).length = h * w := by
  induction h with
  | zero => simp [grid]
  | succ h ih =>
    have : grid w (h + 1) f =
        grid w h f ++ (List.range w).map fun j => f j h := by
      simp [grid, List.range_succ, List.flatMap_append]
    rw [this, List.length_append, ih, List.length_map, List.length_range]
    ring

theorem grid_getElem? (w h : ℕ) (f : ℕ → ℕ → ℚ) (x y : ℕ) (hx : x < w) (hy : y < h) :
    (grid w h f)[y * w + x]? = some (f x y) := by
  induction h with
  | zero => omega
  | succ h ih =>
    have hsplit : grid w (h + 1) f =
        grid w h f ++ (List.range w).map fun j => f j h := by
      simp [grid, List.range_succ, List.flatMap_append]
    rcases Nat.lt_or_ge y h with hyh | hyh
    · have hlt : y * w + x < (grid w h f).length := by
        rw [length_grid]
        have h2 : y * w + w ≤ h * w :=
          calc y * w + w = (y + 1) * w := by ring
            _ ≤ h * w := Nat.mul_le_mul_right w (by omega)
        omega
      rw [hsplit, List.getElem?_append, if_pos hlt]
      exact ih hyh
    · have hy' : y = h := by omega
      subst hy'
      have hge : (grid w y f).length ≤ y * w + x := by rw [length_grid]; omega
      rw [hsplit, List.getElem?_append_right hge, length_grid]
      have hidx : y * w + x - y * w = x := by omega
      rw [hidx, List.getElem?_map, List.getElem?_range hx]
      rfl

theorem grid_getD (w h : ℕ) (f : ℕ → ℕ → ℚ) (x y : ℕ) (hx : x < w) (hy : y < h) :
    (grid w h f).getD (y * w + x) 0 = f x y := by
  rw [List.getD_eq_getElem?_getD, grid_getElem? w h f x y hx hy]
  rfl

/-! ### Facts about the forward scan findFirstEnergyBound -/

/-- divGT is antitone in the threshold. -/
theorem divGT_of_le {e m t1 t2 : ℚ} (h : divGT e m t2 = true) (hle : t1 ≤ t2) :
    divGT e m t1 = true := by
  unfold divGT at h ⊢
  by_cases hm : m = 0
  · rw [if_pos hm] at h ⊢
    exact h
  · rw [if_neg hm] at h ⊢
    simp only [decide_eq_true_eq] at h ⊢
    exact lt_of_le_of_lt hle h

/-- When the maximum of the projection is m ≠ 0, the comparison at an entry
    equal to m succeeds for any threshold below 1. -/
theorem divGT_self {m t : ℚ} (hm : m ≠ 0) (ht : t < 1) : divGT m m t = true := by
  unfold divGT
  rw [if_neg hm]
  simp only [decide_eq_true_eq]
  rwa [div_self hm]

/-- When m = 0 and e ≤ 0, the Go comparison e/m > t is false for every
    threshold (0/0 is NaN, negative/0 is negative infinity). -/
theorem divGT_zero {e t : ℚ} (he : e ≤ 0) : divGT e 0 t = false := by
  unfold divGT
  rw [if_pos rfl]
  rcases eq_or_lt_of_le he with h | h
  · simp [h.symm]
  · simp [not_lt.mpr (le_of_lt h), h.ne]

/-- If no element of the list passes the comparison, the forward scan walks
    off the end, returning the start index plus the list length. -/
theorem findFirstFrom_all_false {m t : ℚ} {l : List ℚ}
    (h : ∀ e ∈ l, divGT e m t = false) (i : ℕ) :
    findFirstFrom m t l i = i + l.length := by
  induction l generalizing i with
  | nil => simp [findFirstFrom]
  | cons e rest ih =>
    rw [findFirstFrom, h e (by simp)]
    simp only [Bool.false_eq_true, if_false]
    rw [ih fun x hx => h x (by simp [hx])]
    simp only [List.length_cons]
    omega

theorem findFirstFrom_ge (m t : ℚ) (l : List ℚ) (i : ℕ) :
    i ≤ findFirstFrom m t l i := by
  induction l generalizing i with
  | nil => simp [findFirstFrom]
  | cons e rest ih =>
    rw [findFirstFrom]
    by_cases hq : divGT e m t = true
    · rw [if_pos hq]
      by_cases hi : 0 < i
      · rw [if_pos hi]
        omega
      · rw [if_neg hi]
    · rw [if_neg hq]
      exact le_trans (by omega) (ih (i + 1))

theorem findFirstFrom_le (m t : ℚ) (l : List ℚ) (i : ℕ) :
    findFirstFrom m t l i ≤ i + l.length + 1 := by
  induction l generalizing i with
  | nil =>
    simp only [findFirstFrom, List.length_nil]
    omega
  | cons e rest ih =>
    rw [findFirstFrom]
    by_cases hq : divGT e m t = true
    · rw [if_pos hq]
      simp only [List.length_cons, bufferPixels]
      by_cases hi : 0 < i
      · rw [if_pos hi]
        omega
      · rw [if_neg hi]
        omega
    · rw [if_neg hq]
      have := ih (i + 1)
      simp only [List.length_cons]
      omega

/-- If some element passes and the scan starts at a positive index, the
    result is at least the start index plus the margin. -/
theorem findFirstFrom_lower {m t : ℚ} {l : List ℚ}
    (h : ∃ e ∈ l, divGT e m t = true) (i : ℕ) (hi : 0 < i) :
    i + bufferPixels ≤ findFirstFrom m t l i := by
  induction l generalizing i with
  | nil => simp at h
  | cons e rest ih =>
    rw [findFirstFrom]
    by_cases hq : divGT e m t = true
    · rw [if_pos hq, if_pos hi]
    · rw [if_neg hq]
      rcases h with ⟨x, hx, hxq⟩
      rcases List.mem_cons.mp hx with rfl | hx'
      · exact absurd hxq hq
      · exact le_trans (by omega) (ih ⟨x, hx', hxq⟩ (i + 1) (by omega))

/-- Monotonicity of the forward scan in the threshold, provided some entry
    passes at the larger threshold. -/
theorem findFirstFrom_mono {m t1 t2 : ℚ} {l : List ℚ} (hle : t1 ≤ t2)
    (h : ∃ e ∈ l, divGT e m t2 = true) (i : ℕ) :
    findFirstFrom m t1 l i ≤ findFirstFrom m t2 l i := by
  induction l generalizing i with
  | nil => simp at h
  | cons e rest ih =>
    by_cases h2 : divGT e m t2 = true
    · have h1 : divGT e m t1 = true := divGT_of_le h2 hle
      rw [findFirstFrom, findFirstFrom, if_pos h1]
      rw [if_pos h2]
    · have hrest : ∃ x ∈ rest, divGT x m t2 = true := by
        rcases h with ⟨x, hx, hxq⟩
        rcases List.mem_cons.mp hx with rfl | hx'
        · exact absurd hxq h2
        · exact ⟨x, hx', hxq⟩
      rw [findFirstFrom, findFirstFrom, if_neg h2]
      by_cases h1 : divGT e m t1 = true
      · rw [if_pos h1]
        by_cases hi : 0 < i
        · rw [if_pos hi]
          exact le_trans (by omega) (findFirstFrom_lower hrest (i + 1) (by omega))
        · rw [if_neg hi]
          exact le_trans (by omega) (findFirstFrom_ge m t2 rest (i + 1))
      · rw [if_neg h1]
        exact ih hrest (i + 1)

/-! ### Facts about findMaxEnergy -/

theorem foldl_max_ge_init (l : List ℚ) (a : ℚ) :
    a ≤ l.foldl (fun mx x => if mx < x then x else mx) a := by
  induction l generalizing a with
  | nil => simp
  | cons e rest ih =>
    rw [List.foldl_cons]
    refine le_trans ?_ (ih _)
    split <;> simp_all [le_of_lt]

theorem foldl_max_ge_mem (l : List ℚ) {x : ℚ} :
    ∀ a : ℚ, x ∈ l → x ≤ l.foldl (fun mx x => if mx < x then x else mx) a := by
  induction l with
  | nil => intro a hx; simp at hx
  | cons e rest ih =>
    intro a hx
    rcases List.mem_cons.mp hx with rfl | hx'
    · rw [List.foldl_cons]
      refine le_trans ?_ (foldl_max_ge_init rest _)
      split
      · exact le_refl _
      · exact le_of_not_lt (by assumption)
    · rw [List.foldl_cons]
      exact ih _ hx'

theorem foldl_max_mem (l : List ℚ) :
    ∀ a : ℚ, l.foldl (fun mx x => if mx < x then x else mx) a = a ∨
      l.foldl (fun mx x => if mx < x then x else mx) a ∈ l := by
  induction l with
  | nil => intro a; simp
  | cons e rest ih =>
    intro a
    rw [List.foldl_cons]
    rcases ih (if a < e then e else a) with h | h
    · rw [h]
      split
      · right; simp
      · left; rfl
    · right; exact List.mem_cons_of_mem _ h

theorem findMaxEnergy_ge {l : List ℚ} {x : ℚ} (hx : x ∈ l) : x ≤ findMaxEnergy l := by
  match l with
  | [] => simp at hx
  | e :: rest =>
    rw [findMaxEnergy]
    rcases List.mem_cons.mp hx with rfl | hx'
    · exact foldl_max_ge_init rest x
    · exact foldl_max_ge_mem rest e hx'

theorem findMaxEnergy_mem {l : List ℚ} (hl : l ≠ []) : findMaxEnergy l ∈ l := by
  match l with
  | [] => exact absurd rfl hl
  | e :: rest =>
    rw [findMaxEnergy]
    rcases foldl_max_mem rest e with h | h
    · rw [h]
      simp
    · exact List.mem_cons_of_mem _ h

/-! ### Facts about the backward scan findLastEnergyBound -/

/-- When the loop variable is already at or below the floor, the backward
    scan returns the accumulator unchanged. -/
theorem findLastFrom_stop {E : List ℚ} {m t : ℚ} {fb : ℕ} {i b : ℕ}
    (h : i ≤ fb + bufferPixels) : findLastFrom E m t fb i b = b := by
  match i with
  | 0 => rw [findLastFrom]
  | i + 1 => rw [findLastFrom, if_neg (by omega)]

/-- When every entry of the projection fails the comparison, the backward
    scan counts exactly the indices it visits. -/
theorem findLastFrom_all_false {E : List ℚ} {m t : ℚ} {fb : ℕ}
    (h : ∀ e ∈ E, divGT e m t = false) :
    ∀ i b, i < E.length →
      findLastFrom E m t fb i b = b + (i - (fb + bufferPixels)) := by
  intro i
  induction i with
  | zero =>
    intro b _
    rw [findLastFrom]
    omega
  | succ i ih =>
    intro b hi
    rw [findLastFrom]
    by_cases hc : fb + bufferPixels < i + 1
    · rw [if_pos hc]
      have hmem : E.getD (i + 1) 0 ∈ E := by
        rw [List.getD_eq_getElem E 0 hi]
        exact List.getElem_mem hi
      rw [h _ hmem]
      simp only [Bool.false_eq_true, if_false]
      rw [ih (b + 1) (by omega)]
      omega
    · rw [if_neg hc]
      omega

/-- Upper bound for the backward scan: either it exhausts its range, having
    counted the visited indices, or it stops at an index above the floor,
    in which case the returned trim is at most length - (floor). -/
theorem findLastFrom_le {E : List ℚ} {m t : ℚ} {fb : ℕ} :
    ∀ i b, i < E.length →
      findLastFrom E m t fb i b ≤
        max (b + (i - (fb + bufferPixels))) (E.length - (fb + bufferPixels)) := by
  intro i
  induction i with
  | zero =>
    intro b _
    rw [findLastFrom]
    omega
  | succ i ih =>
    intro b hi
    rw [findLastFrom]
    by_cases hc : fb + bufferPixels < i + 1
    · rw [if_pos hc]
      by_cases hq : divGT (E.getD (i + 1) 0) m t = true
      · rw [if_pos hq]
        by_cases hm : i + 1 < E.length - 1
        · rw [if_pos hm]
          simp only [bufferPixels] at hc ⊢
          omega
        · rw [if_neg hm]
          simp only [bufferPixels] at hc ⊢
          omega
      · rw [if_neg hq]
        have := ih (b + 1) (by omega)
        omega
    · rw [if_neg hc]
      omega

/-- The backward scan only consults entries at indices strictly above
    firstBound + bufferPixels: two projections of the same length agreeing
    there produce the same result. -/
theorem findLastFrom_congr {E E' : List ℚ} {m t : ℚ} {fb : ℕ}
    (hlen : E.length = E'.length)
    (hagree : ∀ j, fb + bufferPixels < j → E.getD j 0 = E'.getD j 0) :
    ∀ i b, findLastFrom E m t fb i b = findLastFrom E' m t fb i b := by
  intro i
  induction i with
  | zero =>
    intro b
    rw [findLastFrom, findLastFrom]
  | succ i ih =>
    intro b
    rw [findLastFrom, findLastFrom]
    by_cases hc : fb + bufferPixels < i + 1
    · rw [if_pos hc, if_pos hc, hagree (i + 1) hc, hlen]
      by_cases hq : divGT (E'.getD (i + 1) 0) m t = true
      · rw [if_pos hq, if_pos hq]
      · rw [if_neg hq, if_neg hq, ih]
    · rw [if_neg hc, if_neg hc]

theorem findFirstEnergyBound_all_false {E : List ℚ} {m t : ℚ}
    (h : ∀ e ∈ E, divGT e m t = false) :
    findFirstEnergyBound E m t = E.length := by
  rw [findFirstEnergyBound, findFirstFrom_all_false h 0]
  omega

theorem findLastEnergyBound_all_false {E : List ℚ} {m t : ℚ} (fb : ℕ)
    (h : ∀ e ∈ E, divGT e m t = false) :
    findLastEnergyBound E m t fb = E.length - (fb + bufferPixels + 1) := by
  match E with
  | [] =>
    rw [findLastEnergyBound]
    simp only [List.length_nil]
    rw [findLastFrom_stop (by omega)]
    omega
  | e :: rest =>
    rw [findLastEnergyBound,
      findLastFrom_all_false h ((e :: rest).length - 1) 0 (by simp)]
    simp only [List.length_cons]
    omega

/-- The leading and trailing trim counts computed for one projection never
    exceed the projection length plus one. -/
theorem trims_le (E : List ℚ) (m t : ℚ) :
    findFirstEnergyBound E m t +
      findLastEnergyBound E m t (findFirstEnergyBound E m t) ≤ E.length + 1 := by
  have hL : findFirstEnergyBound E m t ≤ E.length + 1 := by
    have := findFirstFrom_le m t E 0
    rw [findFirstEnergyBound]
    omega
  match E with
  | [] =>
    rw [findFirstEnergyBound, findFirstFrom, findLastEnergyBound]
    simp only [List.length_nil]
    rw [findLastFrom_stop (by omega)]
    simp
  | e :: rest =>
    have hR := @findLastFrom_le (e :: rest) m t
      (findFirstEnergyBound (e :: rest) m t)
      ((e :: rest).length - 1) 0 (by simp)
    rw [findLastEnergyBound]
    simp only [bufferPixels] at hR ⊢
    omega

/-! ### The per-pixel energy in terms of the underlying 2D data -/

/-- The luminance sample of the expanded region B at grid offset (j,i). -/
def lumAtPix (img : NRGBA) (B : Rectangle) (j i : ℕ) : ℚ :=
  img.lum (B.minX + j) (B.minY + i)

/-- The alpha sample of the expanded region B at grid offset (j,i). -/
def alphaAtPix (img : NRGBA) (B : Rectangle) (j i : ℕ) : ℚ :=
  img.alpha (B.minX + j) (B.minY + i)

/-- Unfolding of the flat-slice energy computation over a row-major grid:
    at an interior position the nine slice reads hit exactly the eight
    neighbours and the center of the 2D data, yielding the gradient
    formula of the source. -/
theorem energy_grid (w h : ℕ) (f a : ℕ → ℕ → ℚ) (x y : ℕ)
    (hx : x + 2 < w) (hy : y + 2 < h) :
    energy (grid w h f) (grid w h a) (w : ℤ) ((x : ℤ) + 1) ((y : ℤ) + 1) =
      (|f x y + f x (y+1) + f x (y+2)
          - f (x+2) y - f (x+2) (y+1) - f (x+2) (y+2)|
        + |f x y + f (x+1) y + f (x+2) y
          - f x (y+2) - f (x+1) (y+2) - f (x+2) (y+2)|)
        * a (x+1) (y+1) := by
  have p2 : (y + 1) * w = y * w + w := by ring
  have p3 : (y + 2) * w = y * w + 2 * w := by ring
  have hm : ((y : ℤ) + 1) * (w : ℤ) = ((y * w + w : ℕ) : ℤ) := by push_cast; ring
  simp only [energy]
  rw [hm]
  rw [show (((y * w + w : ℕ) : ℤ) + ((x : ℤ) + 1) - (w : ℤ) - 1).toNat = y * w + x by omega]
  rw [show (((y * w + w : ℕ) : ℤ) + ((x : ℤ) + 1) - 1).toNat = (y + 1) * w + x by omega]
  rw [show (((y * w + w : ℕ) : ℤ) + ((x : ℤ) + 1) + (w : ℤ) - 1).toNat = (y + 2) * w + x by omega]
  rw [show (((y * w + w : ℕ) : ℤ) + ((x : ℤ) + 1) - (w : ℤ) + 1).toNat = y * w + (x + 2) by omega]
  rw [show (((y * w + w : ℕ) : ℤ) + ((x : ℤ) + 1) + 1).toNat = (y + 1) * w + (x + 2) by omega]
  rw [show (((y * w + w : ℕ) : ℤ) + ((x : ℤ) + 1) + (w : ℤ) + 1).toNat = (y + 2) * w + (x + 2) by omega]
  rw [show (((y * w + w : ℕ) : ℤ) + ((x : ℤ) + 1) - (w : ℤ)).toNat = y * w + (x + 1) by omega]
  rw [show (((y * w + w : ℕ) : ℤ) + ((x : ℤ) + 1) + (w : ℤ)).toNat = (y + 2) * w + (x + 1) by omega]
  rw [show (((y * w + w : ℕ) : ℤ) + ((x : ℤ) + 1)).toNat = (y + 1) * w + (x + 1) by omega]
  rw [grid_getD w h f x y (by omega) (by omega),
    grid_getD w h f x (y + 1) (by omega) (by omega),
    grid_getD w h f x (y + 2) (by omega) (by omega),
    grid_getD w h f (x + 2) y (by omega) (by omega),
    grid_getD w h f (x + 2) (y + 1) (by omega) (by omega),
    grid_getD w h f (x + 2) (y + 2) (by omega) (by omega),
    grid_getD w h f (x + 1) y (by omega) (by omega),
    grid_getD w h f (x + 1) (y + 2) (by omega) (by omega),
    grid_getD w h a (x + 1) (y + 1) (by omega) (by omega)]

/-- The energy computed from the slices built by luminancesAndAlphas, at an
    interior position of the region B, in terms of the image data. -/
theorem energy_apply (img : NRGBA) (B : Rectangle) (x y : ℕ)
    (hx : x + 2 < B.Dx.toNat) (hy : y + 2 < B.Dy.toNat) :
    energy (luminancesAndAlphas img B).1 (luminancesAndAlphas img B).2 B.Dx
        ((x : ℤ) + 1) ((y : ℤ) + 1) =
      (|lumAtPix img B x y + lumAtPix img B x (y+1) + lumAtPix img B x (y+2)
          - lumAtPix img B (x+2) y - lumAtPix img B (x+2) (y+1) - lumAtPix img B (x+2) (y+2)|
        + |lumAtPix img B x y + lumAtPix img B (x+1) y + lumAtPix img B (x+2) y
          - lumAtPix img B x (y+2) - lumAtPix img B (x+1) (y+2) - lumAtPix img B (x+2) (y+2)|)
        * alphaAtPix img B (x+1) (y+1) := by
  have hw : B.Dx = (B.Dx.toNat : ℤ) := by omega
  simp only [luminancesAndAlphas]
  rw [hw]
  exact energy_grid B.Dx.toNat B.Dy.toNat
    (fun j i => img.lum (B.minX + j) (B.minY + i))
    (fun j i => img.alpha (B.minX + j) (B.minY + i)) x y hx hy

/-! ### Checked variants: every slice access is bounds-checked

A Go slice read panics when the index is negative or at least the length.
The following variants return none in exactly those situations; the theorem
for claim C10 shows they always succeed and agree with the total model. -/

/-- A bounds-checked slice read at a (possibly negative) int index. -/
def intGetQ (l : List ℚ) (k : ℤ) : Option ℚ :=
  if k < 0 then none else l[k.toNat]?

/-- Checked version of the energy function: all nine slice reads checked. -/
def energyChecked (luminances alphas : List ℚ) (width : ℤ) (x y : ℤ) : Option ℚ := do
  let center := y * width + x
  let nw ← intGetQ luminances (center - width - 1)
  let wv ← intGetQ luminances (center - 1)
  let sw ← intGetQ luminances (center + width - 1)
  let nv ← intGetQ luminances (center - width)
  let ne ← intGetQ luminances (center - width + 1)
  let ev ← intGetQ luminances (center + 1)
  let sv ← intGetQ luminances (center + width)
  let se ← intGetQ luminances (center + width + 1)
  let a ← intGetQ alphas center
  pure ((|nw + wv + sw - ne - ev - se| + |nw + nv + ne - sw - sv - se|) * a)

/-- Option-propagating map: none as soon as one element fails. -/
def mapOpt {α β : Type} (f : α → Option β) : List α → Option (List β)
  | [] => some []
  | a :: l =>
    match f a, mapOpt f l with
    | some b, some bs => some (b :: bs)
    | _, _ => none

/-- Checked column projection. -/
def colEnergiesChecked (img : NRGBA) (r : Rectangle) : Option (List ℚ) :=
  let lb := luminanceBoundsOf r
  let la := luminancesAndAlphas img lb
  mapOpt (fun (col : ℕ) =>
    (mapOpt (fun (row : ℕ) => energyChecked la.1 la.2 lb.Dx ((col : ℤ) + 1) ((row : ℤ) + 1))
        (List.range r.Dy.toNat)).map List.sum)
    (List.range r.Dx.toNat)

/-- Checked row projection. -/
def rowEnergiesChecked (img : NRGBA) (r : Rectangle) : Option (List ℚ) :=
  let lb := luminanceBoundsOf r
  let la := luminancesAndAlphas img lb
  mapOpt (fun (row : ℕ) =>
    (mapOpt (fun (col : ℕ) => energyChecked la.1 la.2 lb.Dx ((col : ℤ) + 1) ((row : ℤ) + 1))
        (List.range r.Dx.toNat)).map List.sum)
    (List.range r.Dy.toNat)

/-- Checked Energies. -/
def EnergiesChecked (img : NRGBA) (r : Rectangle) : Option (List ℚ × List ℚ) := do
  let cols ← colEnergiesChecked img r
  let rows ← rowEnergiesChecked img r
  pure (cols, rows)

/-- Checked findMaxEnergy: Go reads energies[0], so an empty slice faults. -/
def findMaxEnergyChecked (energies : List ℚ) : Option ℚ :=
  match energies with
  | [] => none
  | e :: rest => some (rest.foldl (fun mx x => if mx < x then x else mx) e)

/-- Checked backward-scan loop: the read of energies[i] is checked. -/
def findLastFromChecked (energies : List ℚ) (m t : ℚ) (firstBound : ℕ) :
    ℕ → ℕ → Option ℕ
  | 0, bound => some bound
  | i + 1, bound =>
    if firstBound + bufferPixels < i + 1 then
      match energies[i + 1]? with
      | none => none
      | some e =>
        if divGT e m t then
          some (energies.length - (i + 1) - 1 +
            (if i + 1 < energies.length - 1 then bufferPixels else 0))
        else findLastFromChecked energies m t firstBound i (bound + 1)
    else some bound

/-- Checked findLastEnergyBound. -/
def findLastEnergyBoundChecked (energies : List ℚ) (maxEnergy threshold : ℚ)
    (firstBound : ℕ) : Option ℕ :=
  findLastFromChecked energies maxEnergy threshold firstBound (energies.length - 1) 0

/-- Checked BoundsForThreshold: every slice access of the pipeline checked.
    (The forward scan findFirstEnergyBound consumes its list structurally
    and never indexes beyond it, so it needs no checked variant.) -/
def BoundsForThresholdChecked (img : NRGBA) (energyThreshold : ℚ) : Option Rectangle :=
  let energyCrop := energyCropOf img.Rect
  if energyCrop.Empty then some img.Rect
  else do
    let es ← EnergiesChecked img energyCrop
    let maxC ← findMaxEnergyChecked es.1
    let cropLeft := findFirstEnergyBound es.1 maxC energyThreshold
    let cropRight ← findLastEnergyBoundChecked es.1 maxC energyThreshold cropLeft
    let maxR ← findMaxEnergyChecked es.2
    let cropTop := findFirstEnergyBound es.2 maxR energyThreshold
    let cropBottom ← findLastEnergyBoundChecked es.2 maxR energyThreshold cropTop
    pure ⟨img.Rect.minX + cropLeft, img.Rect.minY + cropTop,
          img.Rect.maxX - cropRight, img.Rect.maxY - cropBottom⟩

/-! ### The checked pipeline always succeeds and agrees with the total one -/

theorem energyChecked_grid (w h : ℕ) (f a : ℕ → ℕ → ℚ) (x y : ℕ)
    (hx : x + 2 < w) (hy : y + 2 < h) :
    energyChecked (grid w h f) (grid w h a) (w : ℤ) ((x : ℤ) + 1) ((y : ℤ) + 1) =
      some (energy (grid w h f) (grid w h a) (w : ℤ) ((x : ℤ) + 1) ((y : ℤ) + 1)) := by
  have hm : ((y : ℤ) + 1) * (w : ℤ) = ((y * w + w : ℕ) : ℤ) := by push_cast; ring
  have p2 : (y + 1) * w = y * w + w := by ring
  have p3 : (y + 2) * w = y * w + 2 * w := by ring
  have r1 : intGetQ (grid w h f) (((y : ℤ) + 1) * (w : ℤ) + ((x : ℤ) + 1) - (w : ℤ) - 1) =
      some (f x y) := by
    rw [intGetQ, hm, if_neg (by omega),
      show (((y * w + w : ℕ) : ℤ) + ((x : ℤ) + 1) - (w : ℤ) - 1).toNat = y * w + x by omega]
    exact grid_getElem? w h f x y (by omega) (by omega)
  have r2 : intGetQ (grid w h f) (((y : ℤ) + 1) * (w : ℤ) + ((x : ℤ) + 1) - 1) =
      some (f x (y + 1)) := by
    rw [intGetQ, hm, if_neg (by omega),
      show (((y * w + w : ℕ) : ℤ) + ((x : ℤ) + 1) - 1).toNat = (y + 1) * w + x by omega]
    exact grid_getElem? w h f x (y + 1) (by omega) (by omega)
  have r3 : intGetQ (grid w h f) (((y : ℤ) + 1) * (w : ℤ) + ((x : ℤ) + 1) + (w : ℤ) - 1) =
      some (f x (y + 2)) := by
    rw [intGetQ, hm, if_neg (by omega),
      show (((y * w + w : ℕ) : ℤ) + ((x : ℤ) + 1) + (w : ℤ) - 1).toNat = (y + 2) * w + x by omega]
    exact grid_getElem? w h f x (y + 2) (by omega) (by omega)
  have r4 : intGetQ (grid w h f) (((y : ℤ) + 1) * (w : ℤ) + ((x : ℤ) + 1) - (w : ℤ)) =
      some (f (x + 1) y) := by
    rw [intGetQ, hm, if_neg (by omega),
      show (((y * w + w : ℕ) : ℤ) + ((x : ℤ) + 1) - (w : ℤ)).toNat = y * w + (x + 1) by omega]
    exact grid_getElem? w h f (x + 1) y (by omega) (by omega)
  have r5 : intGetQ (grid w h f) (((y : ℤ) + 1) * (w : ℤ) + ((x : ℤ) + 1) - (w : ℤ) + 1) =
      some (f (x + 2) y) := by
    rw [intGetQ, hm, if_neg (by omega),
      show (((y * w + w : ℕ) : ℤ) + ((x : ℤ) + 1) - (w : ℤ) + 1).toNat = y * w + (x + 2) by omega]
    exact grid_getElem? w h f (x + 2) y (by omega) (by omega)
  have r6 : intGetQ (grid w h f) (((y : ℤ) + 1) * (w : ℤ) + ((x : ℤ) + 1) + 1) =
      some (f (x + 2) (y + 1)) := by
    rw [intGetQ, hm, if_neg (by omega),
      show (((y * w + w : ℕ) : ℤ) + ((x : ℤ) + 1) + 1).toNat = (y + 1) * w + (x + 2) by omega]
    exact grid_getElem? w h f (x + 2) (y + 1) (by omega) (by omega)
  have r7 : intGetQ (grid w h f) (((y : ℤ) + 1) * (w : ℤ) + ((x : ℤ) + 1) + (w : ℤ)) =
      some (f (x + 1) (y + 2)) := by
    rw [intGetQ, hm, if_neg (by omega),
      show (((y * w + w : ℕ) : ℤ) + ((x : ℤ) + 1) + (w : ℤ)).toNat = (y + 2) * w + (x + 1) by omega]
    exact grid_getElem? w h f (x + 1) (y + 2) (by omega) (by omega)
  have r8 : intGetQ (grid w h f) (((y : ℤ) + 1) * (w : ℤ) + ((x : ℤ) + 1) + (w : ℤ) + 1) =
      some (f (x + 2) (y + 2)) := by
    rw [intGetQ, hm, if_neg (by omega),
      show (((y * w + w : ℕ) : ℤ) + ((x : ℤ) + 1) + (w : ℤ) + 1).toNat = (y + 2) * w + (x + 2) by omega]
    exact grid_getElem? w h f (x + 2) (y + 2) (by omega) (by omega)
  have r9 : intGetQ (grid w h a) (((y : ℤ) + 1) * (w : ℤ) + ((x : ℤ) + 1)) =
      some (a (x + 1) (y + 1)) := by
    rw [intGetQ, hm, if_neg (by omega),
      show (((y * w + w : ℕ) : ℤ) + ((x : ℤ) + 1)).toNat = (y + 1) * w + (x + 1) by omega]
    exact grid_getElem? w h a (x + 1) (y + 1) (by omega) (by omega)
  rw [energy_grid w h f a x y hx hy]
  simp only [energyChecked, r1, r2, r3, r4, r5, r6, r7, r8, r9]
  rfl

theorem mapOpt_eq_map {α β : Type} (f : α → Option β) (g : α → β) (l : List α)
    (h : ∀ x ∈ l, f x = some (g x)) : mapOpt f l = some (l.map g) := by
  induction l with
  | nil => rfl
  | cons a l ih =>
    rw [mapOpt, h a (by simp), ih fun x hx => h x (by simp [hx]), List.map_cons]

theorem luminanceBoundsOf_Dx (r : Rectangle) : (luminanceBoundsOf r).Dx = r.Dx + 2 := by
  simp only [luminanceBoundsOf, Rectangle.Dx]
  ring

theorem luminanceBoundsOf_Dy (r : Rectangle) : (luminanceBoundsOf r).Dy = r.Dy + 2 := by
  simp only [luminanceBoundsOf, Rectangle.Dy]
  ring

theorem colEnergiesChecked_eq (img : NRGBA) (r : Rectangle)
    (hx : 0 ≤ r.Dx) (hy : 0 ≤ r.Dy) :
    colEnergiesChecked img r = some (colEnergies img r) := by
  have hwcast : (luminanceBoundsOf r).Dx = ((luminanceBoundsOf r).Dx.toNat : ℤ) := by
    have := luminanceBoundsOf_Dx r
    omega
  have hwn : (luminanceBoundsOf r).Dx.toNat = r.Dx.toNat + 2 := by
    have := luminanceBoundsOf_Dx r
    omega
  have hhn : (luminanceBoundsOf r).Dy.toNat = r.Dy.toNat + 2 := by
    have := luminanceBoundsOf_Dy r
    omega
  rw [colEnergiesChecked, colEnergies]
  refine mapOpt_eq_map _ _ (List.range r.Dx.toNat) fun col hcol => ?_
  rw [Option.map_eq_some']
  refine ⟨_, mapOpt_eq_map _
    (fun (row : ℕ) => energy (luminancesAndAlphas img (luminanceBoundsOf r)).1
      (luminancesAndAlphas img (luminanceBoundsOf r)).2 (luminanceBoundsOf r).Dx
      ((col : ℤ) + 1) ((row : ℤ) + 1)) (List.range r.Dy.toNat) fun row hrow => ?_, rfl⟩
  have hcol' := List.mem_range.mp hcol
  have hrow' := List.mem_range.mp hrow
  rw [luminancesAndAlphas, hwcast]
  exact energyChecked_grid (luminanceBoundsOf r).Dx.toNat (luminanceBoundsOf r).Dy.toNat
    _ _ col row (by omega) (by omega)

theorem rowEnergiesChecked_eq (img : NRGBA) (r : Rectangle)
    (hx : 0 ≤ r.Dx) (hy : 0 ≤ r.Dy) :
    rowEnergiesChecked img r = some (rowEnergies img r) := by
  have hwcast : (luminanceBoundsOf r).Dx = ((luminanceBoundsOf r).Dx.toNat : ℤ) := by
    have := luminanceBoundsOf_Dx r
    omega
  have hwn : (luminanceBoundsOf r).Dx.toNat = r.Dx.toNat + 2 := by
    have := luminanceBoundsOf_Dx r
    omega
  have hhn : (luminanceBoundsOf r).Dy.toNat = r.Dy.toNat + 2 := by
    have := luminanceBoundsOf_Dy r
    omega
  rw [rowEnergiesChecked, rowEnergies]
  refine mapOpt_eq_map _ _ (List.range r.Dy.toNat) fun row hrow => ?_
  rw [Option.map_eq_some']
  refine ⟨_, mapOpt_eq_map _
    (fun (col : ℕ) => energy (luminancesAndAlphas img (luminanceBoundsOf r)).1
      (luminancesAndAlphas img (luminanceBoundsOf r)).2 (luminanceBoundsOf r).Dx
      ((col : ℤ) + 1) ((row : ℤ) + 1)) (List.range r.Dx.toNat) fun col hcol => ?_, rfl⟩
  have hcol' := List.mem_range.mp hcol
  have hrow' := List.mem_range.mp hrow
  rw [luminancesAndAlphas, hwcast]
  exact energyChecked_grid (luminanceBoundsOf r).Dx.toNat (luminanceBoundsOf r).Dy.toNat
    _ _ col row (by omega) (by omega)

theorem findMaxEnergyChecked_eq {E : List ℚ} (h : E ≠ []) :
    findMaxEnergyChecked E = some (findMaxEnergy E) := by
  match E with
  | [] => exact absurd rfl h
  | e :: rest => rfl

theorem findLastFromChecked_eq (E : List ℚ) (m t : ℚ) (fb : ℕ) :
    ∀ i b, i < E.length →
      findLastFromChecked E m t fb i b = some (findLastFrom E m t fb i b) := by
  intro i
  induction i with
  | zero =>
    intro b _
    rw [findLastFromChecked, findLastFrom]
  | succ i ih =>
    intro b hi
    rw [findLastFromChecked, findLastFrom]
    by_cases hc : fb + bufferPixels < i + 1
    · rw [if_pos hc, if_pos hc]
      have hread : E[i + 1]? = some (E.getD (i + 1) 0) := by
        rw [List.getD_eq_getElem E 0 hi]
        exact List.getElem?_eq_getElem hi
      simp only [hread]
      by_cases hq : divGT (E.getD (i + 1) 0) m t = true
      · rw [if_pos hq, if_pos hq]
      · rw [if_neg hq, if_neg hq]
        exact ih (b + 1) (by omega)
    · rw [if_neg hc, if_neg hc]

theorem findLastEnergyBoundChecked_eq (E : List ℚ) (m t : ℚ) (fb : ℕ) :
    findLastEnergyBoundChecked E m t fb = some (findLastEnergyBound E m t fb) := by
  match E with
  | [] =>
    rw [findLastEnergyBoundChecked, findLastEnergyBound]
    simp only [List.length_nil]
    rw [findLastFromChecked, findLastFrom]
  | e :: rest =>
    rw [findLastEnergyBoundChecked, findLastEnergyBound]
    exact findLastFromChecked_eq _ m t fb _ 0 (by simp)

theorem colEnergies_length (img : NRGBA) (r : Rectangle) :
    (colEnergies img r).length = r.Dx.toNat := by
  simp [colEnergies]

theorem rowEnergies_length (img : NRGBA) (r : Rectangle) :
    (rowEnergies img r).length = r.Dy.toNat := by
  simp [rowEnergies]

/-- A non-empty interior region forces both of its dimensions positive (and
    hence the image to be at least 3 pixels in each dimension). -/
theorem energyCrop_dims {r : Rectangle} (hne : (energyCropOf r).Empty = false) :
    0 < (energyCropOf r).Dx ∧ 0 < (energyCropOf r).Dy := by
  simp only [Rectangle.Empty, energyCropOf, Bool.or_eq_false_iff,
    decide_eq_false_iff_not, not_le] at hne
  simp only [Rectangle.Dx, Rectangle.Dy, energyCropOf]
  omega

/-- Unfolding of BoundsForThreshold on the non-degenerate path. -/
theorem BoundsForThreshold_expand (img : NRGBA) (t : ℚ)
    (hne : (energyCropOf img.Rect).Empty = false) :
    BoundsForThreshold img t =
      ⟨img.Rect.minX + findFirstEnergyBound (colEnergies img (energyCropOf img.Rect))
          (findMaxEnergy (colEnergies img (energyCropOf img.Rect))) t,
       img.Rect.minY + findFirstEnergyBound (rowEnergies img (energyCropOf img.Rect))
          (findMaxEnergy (rowEnergies img (energyCropOf img.Rect))) t,
       img.Rect.maxX - findLastEnergyBound (colEnergies img (energyCropOf img.Rect))
          (findMaxEnergy (colEnergies img (energyCropOf img.Rect))) t
          (findFirstEnergyBound (colEnergies img (energyCropOf img.Rect))
            (findMaxEnergy (colEnergies img (energyCropOf img.Rect))) t),
       img.Rect.maxY - findLastEnergyBound (rowEnergies img (energyCropOf img.Rect))
          (findMaxEnergy (rowEnergies img (energyCropOf img.Rect))) t
          (findFirstEnergyBound (rowEnergies img (energyCropOf img.Rect))
            (findMaxEnergy (rowEnergies img (energyCropOf img.Rect))) t)⟩ := by
  rw [BoundsForThreshold, if_neg (by rw [hne]; exact Bool.false_ne_true)]
  simp only [Energies]

/-- Evaluation helper: once both projections are known, BoundsForThreshold
    is determined by the four scans. -/
theorem BoundsForThreshold_run (img : NRGBA) (t : ℚ) (cE rE : List ℚ)
    (hne : (energyCropOf img.Rect).Empty = false)
    (hc : colEnergies img (energyCropOf img.Rect) = cE)
    (hr : rowEnergies img (energyCropOf img.Rect) = rE) :
    BoundsForThreshold img t =
      ⟨img.Rect.minX + findFirstEnergyBound cE (findMaxEnergy cE) t,
       img.Rect.minY + findFirstEnergyBound rE (findMaxEnergy rE) t,
       img.Rect.maxX - findLastEnergyBound cE (findMaxEnergy cE) t
          (findFirstEnergyBound cE (findMaxEnergy cE) t),
       img.Rect.maxY - findLastEnergyBound rE (findMaxEnergy rE) t
          (findFirstEnergyBound rE (findMaxEnergy rE) t)⟩ := by
  rw [BoundsForThreshold_expand img t hne, hc, hr]

/-- The checked pipeline succeeds on every input and returns exactly the
    value of the total model: no slice access is ever out of range. -/
theorem BoundsForThresholdChecked_eq (img : NRGBA) (t : ℚ) :
    BoundsForThresholdChecked img t = some (BoundsForThreshold img t) := by
  by_cases he : (energyCropOf img.Rect).Empty = true
  · rw [BoundsForThresholdChecked, BoundsForThreshold, if_pos he, if_pos he]
  · have hne : (energyCropOf img.Rect).Empty = false := by
      cases h : (energyCropOf img.Rect).Empty
      · rfl
      · exact absurd h he
    obtain ⟨hdx, hdy⟩ := energyCrop_dims hne
    have hclen : (colEnergies img (energyCropOf img.Rect)).length =
        (energyCropOf img.Rect).Dx.toNat := colEnergies_length _ _
    have hrlen : (rowEnergies img (energyCropOf img.Rect)).length =
        (energyCropOf img.Rect).Dy.toNat := rowEnergies_length _ _
    have hcne : colEnergies img (energyCropOf img.Rect) ≠ [] := by
      intro h
      rw [h] at hclen
      simp at hclen
      omega
    have hrne : rowEnergies img (energyCropOf img.Rect) ≠ [] := by
      intro h
      rw [h] at hrlen
      simp at hrlen
      omega
    rw [BoundsForThresholdChecked, if_neg he, BoundsForThreshold_expand img t hne]
    simp only [EnergiesChecked,
      colEnergiesChecked_eq img _ (le_of_lt hdx) (le_of_lt hdy),
      rowEnergiesChecked_eq img _ (le_of_lt hdx) (le_of_lt hdy),
      Option.bind_eq_bind, Option.some_bind, Option.pure_def,
      findMaxEnergyChecked_eq hcne, findMaxEnergyChecked_eq hrne,
      findLastEnergyBoundChecked_eq]

/-! ### Threshold monotonicity of the forward scan -/

theorem findFirstEnergyBound_mono {E : List ℚ} (hE : E ≠ []) {t1 t2 : ℚ}
    (hle : t1 ≤ t2) (ht2 : t2 < 1) :
    findFirstEnergyBound E (findMaxEnergy E) t1 ≤
      findFirstEnergyBound E (findMaxEnergy E) t2 := by
  by_cases hm : findMaxEnergy E = 0
  · have hall : ∀ t : ℚ, ∀ e ∈ E, divGT e (findMaxEnergy E) t = false := by
      intro t e he
      rw [hm]
      exact divGT_zero (le_of_le_of_eq (findMaxEnergy_ge he) hm)
    rw [findFirstEnergyBound_all_false (hall t1),
      findFirstEnergyBound_all_false (hall t2)]
  · exact findFirstFrom_mono hle
      ⟨findMaxEnergy E, findMaxEnergy_mem hE, divGT_self hm ht2⟩ 0

/-! ### Zero-energy (uniform) projections -/

theorem foldl_max_const (l : List ℚ) (a : ℚ) (h : ∀ x ∈ l, x = a) :
    l.foldl (fun mx x => if mx < x then x else mx) a = a := by
  induction l with
  | nil => rfl
  | cons e rest ih =>
    rw [List.foldl_cons, h e (by simp)]
    rw [if_neg (lt_irrefl a)]
    exact ih fun x hx => h x (by simp [hx])

theorem findMaxEnergy_of_all_zero {l : List ℚ} (h : ∀ x ∈ l, x = 0) :
    findMaxEnergy l = 0 := by
  match l with
  | [] => rfl
  | e :: rest =>
    rw [findMaxEnergy, h e (by simp)]
    exact foldl_max_const rest 0 fun x hx => h x (by simp [hx])

theorem colEnergies_const (img : NRGBA) (r : Rectangle) (c : ℚ)
    (hlum : ∀ x y, img.lum x y = c) (hx : 0 < r.Dx) (hy : 0 < r.Dy) :
    ∀ e ∈ colEnergies img r, e = 0 := by
  have hwn : (luminanceBoundsOf r).Dx.toNat = r.Dx.toNat + 2 := by
    have := luminanceBoundsOf_Dx r
    omega
  have hhn : (luminanceBoundsOf r).Dy.toNat = r.Dy.toNat + 2 := by
    have := luminanceBoundsOf_Dy r
    omega
  simp only [colEnergies]
  intro e he
  obtain ⟨col, hcol, rfl⟩ := List.mem_map.mp he
  apply List.sum_eq_zero
  intro v hv
  obtain ⟨row, hrow, rfl⟩ := List.mem_map.mp hv
  have hcol' := List.mem_range.mp hcol
  have hrow' := List.mem_range.mp hrow
  rw [energy_apply img (luminanceBoundsOf r) col row (by omega) (by omega)]
  simp only [lumAtPix, hlum]
  rw [show c + c + c - c - c - c = 0 by ring, abs_zero]
  simp

theorem rowEnergies_const (img : NRGBA) (r : Rectangle) (c : ℚ)
    (hlum : ∀ x y, img.lum x y = c) (hx : 0 < r.Dx) (hy : 0 < r.Dy) :
    ∀ e ∈ rowEnergies img r, e = 0 := by
  have hwn : (luminanceBoundsOf r).Dx.toNat = r.Dx.toNat + 2 := by
    have := luminanceBoundsOf_Dx r
    omega
  have hhn : (luminanceBoundsOf r).Dy.toNat = r.Dy.toNat + 2 := by
    have := luminanceBoundsOf_Dy r
    omega
  simp only [rowEnergies]
  intro e he
  obtain ⟨row, hrow, rfl⟩ := List.mem_map.mp he
  apply List.sum_eq_zero
  intro v hv
  obtain ⟨col, hcol, rfl⟩ := List.mem_map.mp hv
  have hcol' := List.mem_range.mp hcol
  have hrow' := List.mem_range.mp hrow
  rw [energy_apply img (luminanceBoundsOf r) col row (by omega) (by omega)]
  simp only [lumAtPix, hlum]
  rw [show c + c + c - c - c - c = 0 by ring, abs_zero]
  simp

/-- When the loop floor is at least length - 1, the backward scan does not
    run at all. -/
theorem findLastEnergyBound_of_big_fb {E : List ℚ} {m t : ℚ} {fb : ℕ}
    (h : E.length - 1 ≤ fb + bufferPixels) : findLastEnergyBound E m t fb = 0 := by
  rw [findLastEnergyBound]
  exact findLastFrom_stop h

/-- On a buffer of constant luminance, every energy is 0, the maximum is 0,
    every NaN comparison fails, and the crop collapses to the 2-by-2
    bottom-right corner of the buffer. -/
theorem uniform_bounds (img : NRGBA) (c : ℚ) (t : ℚ)
    (hlum : ∀ x y, img.lum x y = c)
    (hne : (energyCropOf img.Rect).Empty = false) :
    BoundsForThreshold img t =
      ⟨img.Rect.maxX - 2, img.Rect.maxY - 2, img.Rect.maxX, img.Rect.maxY⟩ := by
  obtain ⟨hdx, hdy⟩ := energyCrop_dims hne
  have hc0 := colEnergies_const img (energyCropOf img.Rect) c hlum hdx hdy
  have hr0 := rowEnergies_const img (energyCropOf img.Rect) c hlum hdx hdy
  have hmc : findMaxEnergy (colEnergies img (energyCropOf img.Rect)) = 0 :=
    findMaxEnergy_of_all_zero hc0
  have hmr : findMaxEnergy (rowEnergies img (energyCropOf img.Rect)) = 0 :=
    findMaxEnergy_of_all_zero hr0
  have hallc : ∀ e ∈ colEnergies img (energyCropOf img.Rect),
      divGT e (findMaxEnergy (colEnergies img (energyCropOf img.Rect))) t = false := by
    intro e he
    rw [hmc]
    exact divGT_zero (le_of_eq (hc0 e he))
  have hallr : ∀ e ∈ rowEnergies img (energyCropOf img.Rect),
      divGT e (findMaxEnergy (rowEnergies img (energyCropOf img.Rect))) t = false := by
    intro e he
    rw [hmr]
    exact divGT_zero (le_of_eq (hr0 e he))
  have hLc := findFirstEnergyBound_all_false hallc
  have hLr := findFirstEnergyBound_all_false hallr
  rw [BoundsForThreshold_expand img t hne, hLc, hLr,
    findLastEnergyBound_of_big_fb (by rw [colEnergies_length]; omega),
    findLastEnergyBound_of_big_fb (by rw [rowEnergies_length]; omega),
    colEnergies_length, rowEnergies_length]
  have h1 : (energyCropOf img.Rect).Dx = img.Rect.maxX - img.Rect.minX - 2 := by
    simp only [energyCropOf, Rectangle.Dx]
    ring
  have h2 : (energyCropOf img.Rect).Dy = img.Rect.maxY - img.Rect.minY - 2 := by
    simp only [energyCropOf, Rectangle.Dy]
    ring
  simp only [Rectangle.mk.injEq]
  refine ⟨by omega, by omega, by omega, by omega⟩

/-! ### Scans in the presence of qualifying first / last entries -/

theorem findFirstEnergyBound_zero {E : List ℚ} {m t : ℚ} (hne : E ≠ [])
    (h : divGT (E.getD 0 0) m t = true) : findFirstEnergyBound E m t = 0 := by
  match E with
  | [] => exact absurd rfl hne
  | e :: rest =>
    have h' : divGT e m t = true := by simpa using h
    rw [findFirstEnergyBound, findFirstFrom, if_pos h', if_neg (lt_irrefl 0)]

theorem findLastEnergyBound_last_qual {E : List ℚ} {m t : ℚ}
    (h : divGT (E.getD (E.length - 1) 0) m t = true) :
    findLastEnergyBound E m t 0 = 0 := by
  rcases Nat.lt_or_ge (E.length - 1) (0 + bufferPixels + 1) with hsmall | hbig
  · exact findLastEnergyBound_of_big_fb (by omega)
  · obtain ⟨i, hi⟩ : ∃ i, E.length - 1 = i + 1 := ⟨E.length - 2, by omega⟩
    rw [findLastEnergyBound, hi, findLastFrom, if_pos (by omega),
      if_pos (by rw [← hi]; exact h), if_neg (by omega)]
    omega

/-- Positive first and last entries of both projections force every trim to
    be zero at threshold 0 (every ratio positive/positive exceeds 0). -/
theorem zero_threshold_bounds (img : NRGBA)
    (hne : (energyCropOf img.Rect).Empty = false)
    (hc0 : 0 < (colEnergies img (energyCropOf img.Rect)).getD 0 0)
    (hcl : 0 < (colEnergies img (energyCropOf img.Rect)).getD
      ((colEnergies img (energyCropOf img.Rect)).length - 1) 0)
    (hr0 : 0 < (rowEnergies img (energyCropOf img.Rect)).getD 0 0)
    (hrl : 0 < (rowEnergies img (energyCropOf img.Rect)).getD
      ((rowEnergies img (energyCropOf img.Rect)).length - 1) 0) :
    BoundsForThreshold img 0 = img.Rect := by
  obtain ⟨hdx, hdy⟩ := energyCrop_dims hne
  have hclen : 0 < (colEnergies img (energyCropOf img.Rect)).length := by
    rw [colEnergies_length]
    omega
  have hrlen : 0 < (rowEnergies img (energyCropOf img.Rect)).length := by
    rw [rowEnergies_length]
    omega
  have hcne : colEnergies img (energyCropOf img.Rect) ≠ [] :=
    List.ne_nil_of_length_pos hclen
  have hrne : rowEnergies img (energyCropOf img.Rect) ≠ [] :=
    List.ne_nil_of_length_pos hrlen
  have hmemc : (colEnergies img (energyCropOf img.Rect)).getD 0 0 ∈
      colEnergies img (energyCropOf img.Rect) := by
    rw [List.getD_eq_getElem _ 0 hclen]
    exact List.getElem_mem hclen
  have hmemr : (rowEnergies img (energyCropOf img.Rect)).getD 0 0 ∈
      rowEnergies img (energyCropOf img.Rect) := by
    rw [List.getD_eq_getElem _ 0 hrlen]
    exact List.getElem_mem hrlen
  have hmc : 0 < findMaxEnergy (colEnergies img (energyCropOf img.Rect)) :=
    lt_of_lt_of_le hc0 (findMaxEnergy_ge hmemc)
  have hmr : 0 < findMaxEnergy (rowEnergies img (energyCropOf img.Rect)) :=
    lt_of_lt_of_le hr0 (findMaxEnergy_ge hmemr)
  have hq : ∀ (e m : ℚ), 0 < e → 0 < m → divGT e m 0 = true := by
    intro e m he hm
    rw [divGT, if_neg (ne_of_gt hm)]
    simp only [decide_eq_true_eq]
    exact div_pos he hm
  have hLc := findFirstEnergyBound_zero hcne (hq _ _ hc0 hmc)
  have hLr := findFirstEnergyBound_zero hrne (hq _ _ hr0 hmr)
  rw [BoundsForThreshold_expand img 0 hne, hLc, hLr]
  rw [findLastEnergyBound_last_qual (hq _ _ hcl hmc),
    findLastEnergyBound_last_qual (hq _ _ hrl hmr)]
  conv_rhs => rw [show img.Rect =
    ⟨img.Rect.minX, img.Rect.minY, img.Rect.maxX, img.Rect.maxY⟩ from rfl]
  simp only [Rectangle.mk.injEq, Nat.cast_zero]
  refine ⟨by omega, by omega, by omega, by omega⟩

/-! ### Containment and non-emptiness of the result -/

theorem Rectangle.In_self (r : Rectangle) : r.In r = true := by
  rw [Rectangle.In]
  by_cases h : r.Empty = true
  · rw [if_pos h]
  · rw [if_neg h]
    simp

/-- The returned rectangle is always inside the original bounds, and it is
    non-empty whenever the original bounds are non-empty. -/
theorem bounds_in_and_nonempty (img : NRGBA) (t : ℚ) :
    (BoundsForThreshold img t).In img.Rect = true ∧
      (img.Rect.Empty = false → (BoundsForThreshold img t).Empty = false) := by
  by_cases he : (energyCropOf img.Rect).Empty = true
  · have hbft : BoundsForThreshold img t = img.Rect := by
      rw [BoundsForThreshold, if_pos he]
    rw [hbft]
    exact ⟨Rectangle.In_self img.Rect, fun h => h⟩
  · have hne : (energyCropOf img.Rect).Empty = false := by
      cases h : (energyCropOf img.Rect).Empty
      · rfl
      · exact absurd h he
    obtain ⟨hdx, hdy⟩ := energyCrop_dims hne
    have h1 : (energyCropOf img.Rect).Dx = img.Rect.maxX - img.Rect.minX - 2 := by
      simp only [energyCropOf, Rectangle.Dx]
      ring
    have h2 : (energyCropOf img.Rect).Dy = img.Rect.maxY - img.Rect.minY - 2 := by
      simp only [energyCropOf, Rectangle.Dy]
      ring
    have htc := trims_le (colEnergies img (energyCropOf img.Rect))
      (findMaxEnergy (colEnergies img (energyCropOf img.Rect))) t
    have htr := trims_le (rowEnergies img (energyCropOf img.Rect))
      (findMaxEnergy (rowEnergies img (energyCropOf img.Rect))) t
    rw [colEnergies_length] at htc
    rw [rowEnergies_length] at htr
    rw [BoundsForThreshold_expand img t hne]
    have hEmpty : (Rectangle.mk
        (img.Rect.minX + findFirstEnergyBound (colEnergies img (energyCropOf img.Rect))
          (findMaxEnergy (colEnergies img (energyCropOf img.Rect))) t)
        (img.Rect.minY + findFirstEnergyBound (rowEnergies img (energyCropOf img.Rect))
          (findMaxEnergy (rowEnergies img (energyCropOf img.Rect))) t)
        (img.Rect.maxX - findLastEnergyBound (colEnergies img (energyCropOf img.Rect))
          (findMaxEnergy (colEnergies img (energyCropOf img.Rect))) t
          (findFirstEnergyBound (colEnergies img (energyCropOf img.Rect))
            (findMaxEnergy (colEnergies img (energyCropOf img.Rect))) t))
        (img.Rect.maxY - findLastEnergyBound (rowEnergies img (energyCropOf img.Rect))
          (findMaxEnergy (rowEnergies img (energyCropOf img.Rect))) t
          (findFirstEnergyBound (rowEnergies img (energyCropOf img.Rect))
            (findMaxEnergy (rowEnergies img (energyCropOf img.Rect))) t))).Empty
        = false := by
      simp only [Rectangle.Empty, Bool.or_eq_false_iff, decide_eq_false_iff_not, not_le]
      constructor
      · omega
      · omega
    constructor
    · rw [Rectangle.In, if_neg (by rw [hEmpty]; exact Bool.false_ne_true)]
      simp only [Bool.and_eq_true, decide_eq_true_eq]
      refine ⟨⟨⟨by omega, by omega⟩, by omega⟩, by omega⟩
    · intro _
      exact hEmpty

/-! ### Concrete example images

Luminance values model c.Luminance() + alpha for realisable pixels: with
full alpha (fraction 1) the luminance samples lie in [1, 2]. -/

/-- 8x3 image whose interior column energies are [3, 0, 0, 3/2, 0, 0]. -/
def imgMono : NRGBA :=
  ⟨⟨0, 0, 8, 3⟩,
   fun x _ => if x = 0 then 2 else if x = 1 then 3/2 else if x = 3 then 3/2 else 1,
   fun _ _ => 1⟩

/-- 4x4 buffer of constant colour and full alpha. -/
def imgUniform4 : NRGBA := ⟨⟨0, 0, 4, 4⟩, fun _ _ => 3/2, fun _ _ => 1⟩

/-- 3x3 buffer of constant colour and full alpha. -/
def imgUniform3 : NRGBA := ⟨⟨0, 0, 3, 3⟩, fun _ _ => 3/2, fun _ _ => 1⟩

/-- 5x5 buffer of constant colour and full alpha. -/
def imgUniform5 : NRGBA := ⟨⟨0, 0, 5, 5⟩, fun _ _ => 3/2, fun _ _ => 1⟩

/-- A 1x1 buffer. -/
def oneByOne : NRGBA := ⟨⟨0, 0, 1, 1⟩, fun _ _ => 2, fun _ _ => 1⟩

/-- 5x3 image whose interior column energies are [0, 3, 0]: the first and
    last columns carry zero energy. -/
def imgZeroLead : NRGBA :=
  ⟨⟨0, 0, 5, 3⟩, fun x _ => if x = 3 then 2 else 1, fun _ _ => 1⟩

/-- 5x3 image whose interior column energies are [3, 3, 3]: all positive. -/
def imgPosEnds : NRGBA :=
  ⟨⟨0, 0, 5, 3⟩, fun x _ => if x ≤ 1 then 2 else if x = 4 then 2 else 1, fun _ _ => 1⟩

/-- 5x3 image whose interior column energies are [0, 0, 3]: the only
    qualifying column is the final one. -/
def imgLateSpike : NRGBA :=
  ⟨⟨0, 0, 5, 3⟩, fun x _ => if x = 4 then 2 else 1, fun _ _ => 1⟩

theorem imgMono_cols :
    colEnergies imgMono (energyCropOf imgMono.Rect) = [3, 0, 0, 3/2, 0, 0] := by
  simp only [colEnergies, energy, grid, luminancesAndAlphas, luminanceBoundsOf,
    energyCropOf, Rectangle.Dx, Rectangle.Dy, imgMono]
  simp [List.range_succ]
  norm_num

theorem imgMono_rows :
    rowEnergies imgMono (energyCropOf imgMono.Rect) = [9/2] := by
  simp only [rowEnergies, energy, grid, luminancesAndAlphas, luminanceBoundsOf,
    energyCropOf, Rectangle.Dx, Rectangle.Dy, imgMono]
  simp [List.range_succ]
  norm_num
  rw [abs_of_nonneg (by norm_num : (0:ℚ) ≤ 3/2)]
  norm_num

theorem imgZeroLead_cols :
    colEnergies imgZeroLead (energyCropOf imgZeroLead.Rect) = [0, 3, 0] := by
  simp only [colEnergies, energy, grid, luminancesAndAlphas, luminanceBoundsOf,
    energyCropOf, Rectangle.Dx, Rectangle.Dy, imgZeroLead]
  simp [List.range_succ]
  norm_num

theorem imgZeroLead_rows :
    rowEnergies imgZeroLead (energyCropOf imgZeroLead.Rect) = [3] := by
  simp only [rowEnergies, energy, grid, luminancesAndAlphas, luminanceBoundsOf,
    energyCropOf, Rectangle.Dx, Rectangle.Dy, imgZeroLead]
  simp [List.range_succ]
  norm_num

theorem imgPosEnds_cols :
    colEnergies imgPosEnds (energyCropOf imgPosEnds.Rect) = [3, 3, 3] := by
  simp only [colEnergies, energy, grid, luminancesAndAlphas, luminanceBoundsOf,
    energyCropOf, Rectangle.Dx, Rectangle.Dy, imgPosEnds]
  simp [List.range_succ]
  norm_num

theorem imgPosEnds_rows :
    rowEnergies imgPosEnds (energyCropOf imgPosEnds.Rect) = [9] := by
  simp only [rowEnergies, energy, grid, luminancesAndAlphas, luminanceBoundsOf,
    energyCropOf, Rectangle.Dx, Rectangle.Dy, imgPosEnds]
  simp [List.range_succ]
  norm_num

theorem imgLateSpike_cols :
    colEnergies imgLateSpike (energyCropOf imgLateSpike.Rect) = [0, 0, 3] := by
  simp only [colEnergies, energy, grid, luminancesAndAlphas, luminanceBoundsOf,
    energyCropOf, Rectangle.Dx, Rectangle.Dy, imgLateSpike]
  simp [List.range_succ]
  norm_num

theorem imgMono_bounds_quarter : BoundsForThreshold imgMono (1/4) = ⟨0, 0, 4, 3⟩ := by
  rw [BoundsForThreshold_run imgMono (1/4) _ _ rfl imgMono_cols imgMono_rows]
  norm_num [findMaxEnergy, findFirstEnergyBound, findFirstFrom, findLastEnergyBound,
    findLastFrom, divGT, bufferPixels, imgMono, Rectangle.mk.injEq]

theorem imgMono_bounds_half : BoundsForThreshold imgMono (1/2) = ⟨0, 0, 5, 3⟩ := by
  rw [BoundsForThreshold_run imgMono (1/2) _ _ rfl imgMono_cols imgMono_rows]
  norm_num [findMaxEnergy, findFirstEnergyBound, findFirstFrom, findLastEnergyBound,
    findLastFrom, divGT, bufferPixels, imgMono, Rectangle.mk.injEq]

theorem imgZeroLead_bounds : BoundsForThreshold imgZeroLead 0 = ⟨3, 0, 5, 3⟩ := by
  rw [BoundsForThreshold_run imgZeroLead 0 _ _ rfl imgZeroLead_cols imgZeroLead_rows]
  norm_num [findMaxEnergy, findFirstEnergyBound, findFirstFrom, findLastEnergyBound,
    findLastFrom, divGT, bufferPixels, imgZeroLead, Rectangle.mk.injEq]

/-! ### Claim theorems -/

/-- C1 (amended): for a fixed image and thresholds t1 < t2 < 1, the leading
    trims never shrink, so the Min corner of the result is monotone: the
    crop at t2 starts no earlier than the crop at t1 on both axes.  (Full
    containment of the t2 result in the t1 result is false, see the
    counterexample: the trailing scan's floor depends on the leading bound
    and the safety margin, so the right/bottom edge is not monotone.) -/
theorem C1_threshold_monotonicity (img : NRGBA) (t1 t2 : ℚ)
    (h12 : t1 < t2) (h21 : t2 < 1) :
    (BoundsForThreshold img t1).minX ≤ (BoundsForThreshold img t2).minX ∧
    (BoundsForThreshold img t1).minY ≤ (BoundsForThreshold img t2).minY := by
  by_cases he : (energyCropOf img.Rect).Empty = true
  · have e1 : BoundsForThreshold img t1 = img.Rect := by
      rw [BoundsForThreshold, if_pos he]
    have e2 : BoundsForThreshold img t2 = img.Rect := by
      rw [BoundsForThreshold, if_pos he]
    rw [e1, e2]
    exact ⟨le_refl _, le_refl _⟩
  · have hne : (energyCropOf img.Rect).Empty = false := by
      cases h : (energyCropOf img.Rect).Empty
      · rfl
      · exact absurd h he
    obtain ⟨hdx, hdy⟩ := energyCrop_dims hne
    have hcne : colEnergies img (energyCropOf img.Rect) ≠ [] := by
      apply List.ne_nil_of_length_pos
      rw [colEnergies_length]
      omega
    have hrne : rowEnergies img (energyCropOf img.Rect) ≠ [] := by
      apply List.ne_nil_of_length_pos
      rw [rowEnergies_length]
      omega
    have hmc := findFirstEnergyBound_mono hcne (le_of_lt h12) h21
    have hmr := findFirstEnergyBound_mono hrne (le_of_lt h12) h21
    rw [BoundsForThreshold_expand img t1 hne, BoundsForThreshold_expand img t2 hne]
    dsimp only
    exact ⟨by omega, by omega⟩

/-- C1 witness: the amended monotonicity at a concrete image and thresholds. -/
theorem C1_witness :
    (BoundsForThreshold imgMono (1/4)).minX ≤ (BoundsForThreshold imgMono (1/2)).minX ∧
    (BoundsForThreshold imgMono (1/4)).minY ≤ (BoundsForThreshold imgMono (1/2)).minY :=
  C1_threshold_monotonicity imgMono (1/4) (1/2) (by norm_num) (by norm_num)

/-- C1 counterexample: thresholds 1/4 < 1/2 (both inside (0,1)) for which
    the crop at the larger threshold is NOT contained in the crop at the
    smaller one: the scans give (0,0)-(4,3) at 1/4 but (0,0)-(5,3) at 1/2. -/
theorem C1_counterexample :
    ((1 : ℚ)/4 < 1/2) ∧
    Rectangle.In (BoundsForThreshold imgMono (1/2)) (BoundsForThreshold imgMono (1/4)) =
      false := by
  refine ⟨by norm_num, ?_⟩
  rw [imgMono_bounds_half, imgMono_bounds_quarter]
  decide

/-- C2 (amended): a buffer of constant colour and constant full alpha has
    zero energy everywhere, so the NaN comparisons all fail and, whenever
    the interior region is non-empty, BoundsForThreshold returns the 2x2
    region at the Max corner for EVERY threshold - not the original bounds. -/
theorem C2_uniform_invariance (img : NRGBA) (c t : ℚ)
    (hlum : ∀ x y, img.lum x y = c) (_halpha : ∀ x y, img.alpha x y = 1)
    (hne : (energyCropOf img.Rect).Empty = false) :
    BoundsForThreshold img t =
      ⟨img.Rect.maxX - 2, img.Rect.maxY - 2, img.Rect.maxX, img.Rect.maxY⟩ :=
  uniform_bounds img c t hlum hne

/-- C2 witness: the amended statement at a concrete uniform 4x4 buffer. -/
theorem C2_witness : BoundsForThreshold imgUniform4 (1/3) = ⟨2, 2, 4, 4⟩ :=
  (C2_uniform_invariance imgUniform4 (3/2) (1/3) (fun _ _ => rfl) (fun _ _ => rfl)
    rfl).trans (by decide)

/-- C2 counterexample: a constant-colour full-alpha 4x4 buffer with
    threshold 1/2 ∈ (0,1] is cropped (to (2,2)-(4,4)), not returned
    unchanged. -/
theorem C2_counterexample :
    ((0 : ℚ) < 1/2 ∧ (1 : ℚ)/2 ≤ 1) ∧
    BoundsForThreshold imgUniform4 (1/2) ≠ imgUniform4.Rect := by
  refine ⟨⟨by norm_num, by norm_num⟩, ?_⟩
  rw [uniform_bounds imgUniform4 (3/2) (1/2) (fun _ _ => rfl) rfl]
  decide

/-- C3 (amended): when the maximum of a projection is 0, every comparison
    energies[i]/maxEnergy > threshold is false for every threshold (the
    division is NOT explicitly guarded; in Go it yields NaN, whose
    comparisons are all false, and no fault occurs - see C10).  The forward
    scan therefore trims the whole projection length and the backward scan,
    whose floor is then beyond the projection, trims 0 - not zero on both
    ends. -/
theorem C3_zero_max_energy (E : List ℚ) (t : ℚ)
    (hmax : findMaxEnergy E = 0) :
    findFirstEnergyBound E (findMaxEnergy E) t = E.length ∧
    findLastEnergyBound E (findMaxEnergy E) t
      (findFirstEnergyBound E (findMaxEnergy E) t) = 0 := by
  have hall : ∀ e ∈ E, divGT e (findMaxEnergy E) t = false := fun e he => by
    rw [hmax]
    exact divGT_zero (le_of_le_of_eq (findMaxEnergy_ge he) hmax)
  have h1 := findFirstEnergyBound_all_false hall
  refine ⟨h1, ?_⟩
  rw [h1]
  exact findLastEnergyBound_of_big_fb (by omega)

/-- C3 witness: the amended statement at a concrete zero projection. -/
theorem C3_witness :
    findFirstEnergyBound [(0 : ℚ), 0, 0] (findMaxEnergy [(0 : ℚ), 0, 0]) (1/2) = 3 ∧
    findLastEnergyBound [(0 : ℚ), 0, 0] (findMaxEnergy [(0 : ℚ), 0, 0]) (1/2)
      (findFirstEnergyBound [(0 : ℚ), 0, 0] (findMaxEnergy [(0 : ℚ), 0, 0]) (1/2)) = 0 := by
  have h := C3_zero_max_energy [0, 0, 0] (1/2)
    (by norm_num [findMaxEnergy, List.foldl_cons, List.foldl_nil])
  simpa using h

/-- C3 counterexample: a uniform 3x3 image has maximum column energy 0, yet
    BoundsForThreshold at the positive threshold 1/2 does not retain the
    full image: it returns (1,1)-(3,3). -/
theorem C3_counterexample :
    findMaxEnergy (colEnergies imgUniform3 (energyCropOf imgUniform3.Rect)) = 0 ∧
    BoundsForThreshold imgUniform3 (1/2) ≠ imgUniform3.Rect := by
  constructor
  · exact findMaxEnergy_of_all_zero
      (colEnergies_const imgUniform3 _ (3/2) (fun _ _ => rfl) (by decide) (by decide))
  · rw [uniform_bounds imgUniform3 (3/2) (1/2) (fun _ _ => rfl) rfl]
    decide

/-- C4: when the interior region (the bounds shrunk by the 1-pixel margin)
    is empty - which covers empty bounds and every 1x1 and 2x2 buffer -
    BoundsForThreshold returns the original bounds unchanged for every
    threshold, before any energy computation. -/
theorem C4_degenerate_guard (img : NRGBA) (t : ℚ)
    (h : (energyCropOf img.Rect).Empty = true) :
    BoundsForThreshold img t = img.Rect := by
  rw [BoundsForThreshold, if_pos h]

/-- C4 witness: a 1x1 buffer yields the full 1x1 region. -/
theorem C4_witness : BoundsForThreshold oneByOne (1/100) = oneByOne.Rect :=
  C4_degenerate_guard oneByOne (1/100) rfl

/-- C5 (amended): threshold 0 trims nothing PROVIDED the first and last
    entries of both energy projections are positive (then every ratio
    entry/max is positive, so index 0 and the final index qualify at once
    and no margin is applied).  Without that proviso zero-energy borders
    are still trimmed at threshold 0, see the counterexample. -/
theorem C5_zero_threshold (img : NRGBA)
    (hne : (energyCropOf img.Rect).Empty = false)
    (hc0 : 0 < (colEnergies img (energyCropOf img.Rect)).getD 0 0)
    (hcl : 0 < (colEnergies img (energyCropOf img.Rect)).getD
      ((colEnergies img (energyCropOf img.Rect)).length - 1) 0)
    (hr0 : 0 < (rowEnergies img (energyCropOf img.Rect)).getD 0 0)
    (hrl : 0 < (rowEnergies img (energyCropOf img.Rect)).getD
      ((rowEnergies img (energyCropOf img.Rect)).length - 1) 0) :
    BoundsForThreshold img 0 = img.Rect :=
  zero_threshold_bounds img hne hc0 hcl hr0 hrl

/-- C5 witness: an image with everywhere-positive projections is returned
    unchanged at threshold 0. -/
theorem C5_witness : BoundsForThreshold imgPosEnds 0 = imgPosEnds.Rect :=
  C5_zero_threshold imgPosEnds rfl
    (by rw [imgPosEnds_cols]; norm_num)
    (by rw [imgPosEnds_cols]; norm_num)
    (by rw [imgPosEnds_rows]; norm_num)
    (by rw [imgPosEnds_rows]; norm_num)

/-- C5 counterexample: an image whose leading interior columns have zero
    energy is cropped at threshold 0 (the crop is (3,0)-(5,3), not the full
    (0,0)-(5,3) bounds). -/
theorem C5_counterexample : BoundsForThreshold imgZeroLead 0 ≠ imgZeroLead.Rect := by
  rw [imgZeroLead_bounds]
  decide

/-- C6: at an interior position, the energy computed from the flat slices
    equals |horizontal gradient| + |vertical gradient| multiplied by the
    alpha of the center pixel, with the gradients taken over the eight
    neighbour luminances exactly as in the claim; consequently a pixel of
    alpha 0 has energy exactly 0 regardless of the neighbour luminances. -/
theorem C6_energy_formula (img : NRGBA) (B : Rectangle) (x y : ℕ)
    (hx : x + 2 < B.Dx.toNat) (hy : y + 2 < B.Dy.toNat) :
    (energy (luminancesAndAlphas img B).1 (luminancesAndAlphas img B).2 B.Dx
        ((x : ℤ) + 1) ((y : ℤ) + 1) =
      (|lumAtPix img B x y + lumAtPix img B x (y+1) + lumAtPix img B x (y+2)
          - lumAtPix img B (x+2) y - lumAtPix img B (x+2) (y+1)
          - lumAtPix img B (x+2) (y+2)|
        + |lumAtPix img B x y + lumAtPix img B (x+1) y + lumAtPix img B (x+2) y
          - lumAtPix img B x (y+2) - lumAtPix img B (x+1) (y+2)
          - lumAtPix img B (x+2) (y+2)|)
        * alphaAtPix img B (x+1) (y+1)) ∧
    (alphaAtPix img B (x+1) (y+1) = 0 →
      energy (luminancesAndAlphas img B).1 (luminancesAndAlphas img B).2 B.Dx
        ((x : ℤ) + 1) ((y : ℤ) + 1) = 0) := by
  refine ⟨energy_apply img B x y hx hy, fun h0 => ?_⟩
  rw [energy_apply img B x y hx hy, h0, mul_zero]

/-- C6 witness: the formula evaluated at a concrete interior pixel. -/
theorem C6_witness :
    energy (luminancesAndAlphas imgMono imgMono.Rect).1
      (luminancesAndAlphas imgMono imgMono.Rect).2 imgMono.Rect.Dx
      (((0 : ℕ) : ℤ) + 1) (((0 : ℕ) : ℤ) + 1) = 3 := by
  have h := (C6_energy_formula imgMono imgMono.Rect 0 0 (by decide) (by decide)).1
  rw [h]
  norm_num [lumAtPix, alphaAtPix, imgMono]

/-- C7 (amended): when no index of the projection passes the comparison,
    the forward scan trims the FULL projection length (not length minus 1:
    the bound counter is incremented once per visited index, and all of
    them are visited), and the backward scan counts the indices between its
    start and the floor: length - (firstBound + margin + 1), truncated at
    0.  No safety margin is added in either case. -/
theorem C7_no_qualifying_trims (E : List ℚ) (m t : ℚ) (fb : ℕ)
    (h : ∀ e ∈ E, divGT e m t = false) :
    findFirstEnergyBound E m t = E.length ∧
    findLastEnergyBound E m t fb = E.length - (fb + bufferPixels + 1) :=
  ⟨findFirstEnergyBound_all_false h, findLastEnergyBound_all_false fb h⟩

/-- C7 witness: the amended counts at a concrete projection. -/
theorem C7_witness :
    findFirstEnergyBound [(0 : ℚ), 0] 0 7 = 2 ∧
    findLastEnergyBound [(0 : ℚ), 0] 0 7 0 = 0 := by
  have h := C7_no_qualifying_trims [(0 : ℚ), 0] 0 7 0 (by
    intro e he
    rcases List.mem_cons.mp he with rfl | he2
    · norm_num [divGT]
    · rcases List.mem_singleton.mp he2 with rfl
      norm_num [divGT])
  simpa using h

/-- C7 counterexample: for the column projection of a uniform 5x5 image no
    index qualifies at threshold 1/2, and the forward-scan trim equals the
    projection length 3, not length - 1. -/
theorem C7_counterexample :
    (∀ e ∈ colEnergies imgUniform5 (energyCropOf imgUniform5.Rect),
      divGT e (findMaxEnergy (colEnergies imgUniform5 (energyCropOf imgUniform5.Rect)))
        (1/2) = false) ∧
    findFirstEnergyBound (colEnergies imgUniform5 (energyCropOf imgUniform5.Rect))
      (findMaxEnergy (colEnergies imgUniform5 (energyCropOf imgUniform5.Rect))) (1/2) ≠
    (colEnergies imgUniform5 (energyCropOf imgUniform5.Rect)).length - 1 := by
  have hzero := colEnergies_const imgUniform5 (energyCropOf imgUniform5.Rect) (3/2)
    (fun _ _ => rfl) (by decide) (by decide)
  have hmax := findMaxEnergy_of_all_zero hzero
  have hall : ∀ e ∈ colEnergies imgUniform5 (energyCropOf imgUniform5.Rect),
      divGT e (findMaxEnergy (colEnergies imgUniform5 (energyCropOf imgUniform5.Rect)))
        (1/2) = false := fun e he => by
    rw [hmax]
    exact divGT_zero (le_of_eq (hzero e he))
  refine ⟨hall, ?_⟩
  rw [findFirstEnergyBound_all_false hall, colEnergies_length]
  decide

/-- C8 (amended): the backward scan reads only indices strictly greater
    than firstBound + bufferPixels (its result depends only on those
    entries), and the leading plus trailing trims never exceed the
    projection length PLUS ONE - the sum can reach length+1 when the
    forward scan fires at the final index and adds its margin, see the
    counterexample, so the bound "never exceeds the length" is off by one. -/
theorem C8_scans_never_cross :
    (∀ (E E' : List ℚ) (m t : ℚ) (fb : ℕ), E.length = E'.length →
      (∀ j, fb + bufferPixels < j → E.getD j 0 = E'.getD j 0) →
      findLastEnergyBound E m t fb = findLastEnergyBound E' m t fb) ∧
    (∀ (E : List ℚ) (m t : ℚ),
      findFirstEnergyBound E m t +
        findLastEnergyBound E m t (findFirstEnergyBound E m t) ≤ E.length + 1) := by
  constructor
  · intro E E' m t fb hlen hagree
    rw [findLastEnergyBound, findLastEnergyBound, hlen]
    exact findLastFrom_congr hlen hagree (E'.length - 1) 0
  · intro E m t
    exact trims_le E m t

/-- C8 witness: both amended parts at concrete projections. -/
theorem C8_witness :
    findLastEnergyBound [(9 : ℚ), 9, 9, 0, 0, 7] 9 (1/2) 1 =
      findLastEnergyBound [(1 : ℚ), 2, 3, 0, 0, 7] 9 (1/2) 1 ∧
    findFirstEnergyBound [(1 : ℚ), 0] 1 (1/2) +
      findLastEnergyBound [(1 : ℚ), 0] 1 (1/2)
        (findFirstEnergyBound [(1 : ℚ), 0] 1 (1/2)) ≤ 3 := by
  refine ⟨C8_scans_never_cross.1 _ _ 9 (1/2) 1 (by norm_num) ?_,
    C8_scans_never_cross.2 [(1 : ℚ), 0] 1 (1/2)⟩
  intro j hj
  simp only [bufferPixels] at hj
  match j, hj with
  | 4, _ => rfl
  | 5, _ => rfl
  | (n + 6), _ =>
    rw [List.getD_eq_default _ _ (by simp), List.getD_eq_default _ _ (by simp)]

/-- C8 counterexample: a projection on which the leading trim (4, from the
    qualifying final index 2 plus the margin) alone already exceeds the
    projection length 3, so leading + trailing > length. -/
theorem C8_counterexample :
    (colEnergies imgLateSpike (energyCropOf imgLateSpike.Rect)).length <
      findFirstEnergyBound (colEnergies imgLateSpike (energyCropOf imgLateSpike.Rect))
        (findMaxEnergy (colEnergies imgLateSpike (energyCropOf imgLateSpike.Rect))) (1/2) +
      findLastEnergyBound (colEnergies imgLateSpike (energyCropOf imgLateSpike.Rect))
        (findMaxEnergy (colEnergies imgLateSpike (energyCropOf imgLateSpike.Rect))) (1/2)
        (findFirstEnergyBound (colEnergies imgLateSpike (energyCropOf imgLateSpike.Rect))
          (findMaxEnergy (colEnergies imgLateSpike (energyCropOf imgLateSpike.Rect)))
          (1/2)) := by
  rw [imgLateSpike_cols]
  norm_num [findMaxEnergy, findFirstEnergyBound, findFirstFrom, findLastEnergyBound,
    findLastFrom, divGT, bufferPixels]

/-- C9: the returned rectangle is always contained in the original bounds,
    and whenever the original bounds are non-empty the result is non-empty
    too (the two trims of an axis never reach the axis length). -/
theorem C9_result_containment (img : NRGBA) (t : ℚ) :
    (BoundsForThreshold img t).In img.Rect = true ∧
      (img.Rect.Empty = false → (BoundsForThreshold img t).Empty = false) :=
  bounds_in_and_nonempty img t

/-- C9 witness: containment and non-emptiness at a concrete image. -/
theorem C9_witness :
    (BoundsForThreshold oneByOne (1/2)).In oneByOne.Rect = true ∧
    (BoundsForThreshold oneByOne (1/2)).Empty = false := by
  have h := C9_result_containment oneByOne (1/2)
  exact ⟨h.1, h.2 rfl⟩

/-- C10: for every image and every threshold (including values below 0 and
    above 1, on which no scan comparison depends for safety), the fully
    bounds-checked pipeline succeeds - no slice read is ever out of range -
    and returns exactly the rectangle of the total model. -/
theorem C10_no_out_of_range_access (img : NRGBA) (t : ℚ) :
    BoundsForThresholdChecked img t = some (BoundsForThreshold img t) :=
  BoundsForThresholdChecked_eq img t

end Autocrop
